import Mathlib

/-!
Verification of the nec-node-sdk numeric and RPC-dispatch layer

Shallow embedding of `src/utils.ts` (hex/decimal conversion, scaled-unit
parsing and formatting, wire-response normalization) and of the `Provider`
JSON-RPC dispatcher (single and batch calls, envelope construction,
response correlation), together with theorems settling the specification
claims about them.

Strings are Lean `String`s; character-level operations mirror the
JavaScript string primitives (`split`, `padStart`, `padEnd`, regex digit
tests) on the underlying character lists.  JavaScript arbitrary-precision
`BigInt` values are `Nat`/`Int`; JavaScript IEEE-754 `number` values are
modelled as exact rationals together with an explicit binary64
round-to-nearest-even function applied wherever the source converts a
string or BigInt to a `number`.
-/

/-- The characters '0'..'9' as digit values. -/
def charDigitVal (c : Char) : Nat := c.toNat - 48

/-- Is `c` a decimal digit (JS `\d`)? -/
def isDecDigit (c : Char) : Bool := 48 ≤ c.toNat && c.toNat ≤ 57

/-- Is `c` a lowercase hex digit (JS `[0-9a-f]`)? -/
def isLowerHexDigit (c : Char) : Bool :=
  isDecDigit c || (97 ≤ c.toNat && c.toNat ≤ 102)

/-- Is `c` a hex digit of either case (JS `[a-fA-F0-9]`)? -/
def isAnyHexDigit (c : Char) : Bool :=
  isLowerHexDigit c || (65 ≤ c.toNat && c.toNat ≤ 70)

/-- Value of a hex digit character of either case (0 for non-digits). -/
def hexDigitVal (c : Char) : Nat :=
  if isDecDigit c then c.toNat - 48
  else if 97 ≤ c.toNat && c.toNat ≤ 102 then c.toNat - 87
  else if 65 ≤ c.toNat && c.toNat ≤ 70 then c.toNat - 55
  else 0

/-- The character for digit value `d < 10`. -/
def digitChar (d : Nat) : Char := Char.ofNat (48 + d)

/-- The lowercase character for hex digit value `d < 16`
    (as produced by JS `BigInt.prototype.toString(16)`). -/
def hexChar (d : Nat) : Char :=
  if d < 10 then Char.ofNat (48 + d) else Char.ofNat (87 + d)

/-- Value of a most-significant-digit-first decimal digit list
    (the numeric value JS `BigInt("...")` assigns to a digit string). -/
def decDigitsVal (ds : List Char) : Nat :=
  ds.foldl (fun v c => v * 10 + charDigitVal c) 0

/-- Value of a most-significant-digit-first hex digit list. -/
def hexDigitsVal (ds : List Char) : Nat :=
  ds.foldl (fun v c => v * 16 + hexDigitVal c) 0

/-- Digit characters of `n` in base `b`, most significant first,
    `[]` for 0; fuel-indexed so that it is structurally recursive. -/
def natDigitsAux (b : Nat) : Nat → Nat → List Char → List Char
  | 0, _, acc => acc
  | _ + 1, 0, acc => acc
  | fuel + 1, n, acc =>
      natDigitsAux b fuel (n / b)
        ((if b = 16 then hexChar (n % b) else digitChar (n % b)) :: acc)

/-- JS `BigInt.prototype.toString(10)` for a natural number. -/
def natToDec (n : Nat) : String :=
  if n = 0 then "0" else ⟨natDigitsAux 10 n n []⟩

/-- JS `BigInt.prototype.toString(16)` for a natural number (lowercase). -/
def natToHex (n : Nat) : String :=
  if n = 0 then "0" else ⟨natDigitsAux 16 n n []⟩

/-- JS `BigInt.prototype.toString(10)` for an integer. -/
def intToDec (i : Int) : String :=
  if i < 0 then "-" ++ natToDec i.natAbs else natToDec i.natAbs

/-- All characters are decimal digits and the list is nonempty
    (JS regex `^\d+$`). -/
def isDigits1 (cs : List Char) : Bool := !cs.isEmpty && cs.all isDecDigit

/-- All characters are decimal digits, possibly empty (JS regex `^\d*$`). -/
def isDigits0 (cs : List Char) : Bool := cs.all isDecDigit

/-- JS `String.prototype.padStart(width, '0')`. -/
def padStartZeros (width : Nat) (cs : List Char) : List Char :=
  List.replicate (width - cs.length) '0' ++ cs

/-- JS `String.prototype.padEnd(width, '0')`. -/
def padEndZeros (width : Nat) (cs : List Char) : List Char :=
  cs ++ List.replicate (width - cs.length) '0'

/-- JS `String.prototype.replace(/0+$/, '')`: strip the maximal run of
    trailing `'0'` characters. -/
def stripTrailingZeros (cs : List Char) : List Char :=
  (cs.reverse.dropWhile (· = '0')).reverse

/-- JS `String.prototype.split('.')`. -/
def splitOnDot : List Char → List (List Char)
  | [] => [[]]
  | c :: rest =>
      let r := splitOnDot rest
      if c = '.' then [] :: r
      else
        match r with
        | [] => [[c]]
        | h :: t => (c :: h) :: t

/-- Destructuring `const [wholePart, fracPart = ''] = str.split('.')`:
    the first two components of the split, the second defaulting to
    empty; later components are silently ignored by the source. -/
def splitWholeFrac (cs : List Char) : List Char × List Char :=
  match splitOnDot cs with
  | [] => ([], [])
  | [w] => (w, [])
  | w :: f :: _ => (w, f)

/-- JS `String.prototype.trim()` (for the whitespace forms that occur
    here: space, tab, newline, carriage return). -/
def jsIsSpace (c : Char) : Bool :=
  c = ' ' || c = '\t' || c = '\n' || c = '\r'

/-- JS `String.prototype.trim()`. -/
def jsTrim (s : String) : String :=
  ⟨(((s.data.dropWhile jsIsSpace).reverse.dropWhile jsIsSpace).reverse)⟩

/-- JS `String.prototype.toLowerCase()` for ASCII. -/
def jsToLower (s : String) : String :=
  ⟨s.data.map fun c =>
    if 65 ≤ c.toNat && c.toNat ≤ 90 then Char.ofNat (c.toNat + 32) else c⟩

/-- JS `String.prototype.startsWith("0x")`. -/
def startsWith0x (s : String) : Bool :=
  match s.data with
  | '0' :: 'x' :: _ => true
  | _ => false

/-! ## Binary64 model

JavaScript `number` values are IEEE-754 binary64.  We model a `number`
as the exact rational it denotes, and model every conversion that the
source performs from a string or `BigInt` to a `number` by explicit
round-to-nearest-even at 53 significand bits.  The model covers the
normal finite range (no `Infinity`/subnormal bookkeeping); every claim
is evaluated well inside that range. -/

/-- Floor of the base-2 logarithm of `n ≥ 1`, fuel-indexed so that it
    is structurally recursive. -/
def natLog2Aux : Nat → Nat → Nat
  | 0, _ => 0
  | fuel + 1, n => if n ≤ 1 then 0 else natLog2Aux fuel (n / 2) + 1

/-- Floor of the base-2 logarithm of `n` (0 for `n ≤ 1`). -/
def natLog2 (n : Nat) : Nat := natLog2Aux n n

/-- Least `k` with `a * 2 ^ k ≥ b` (for `a ≥ 1`), fuel-indexed. -/
def minPowAux : Nat → Nat → Nat → Nat
  | 0, _, _ => 0
  | fuel + 1, acc, b => if b ≤ acc then 0 else minPowAux fuel (2 * acc) b + 1

/-- Least `k` with `a * 2 ^ k ≥ b`. -/
def minPow (a b : Nat) : Nat := minPowAux b a b

/-- Round `A / B` (`B ≥ 1`) to the nearest integer, ties to even. -/
def roundNearestEven (A B : Nat) : Nat :=
  let q := A / B
  let r := A % B
  if B < 2 * r then q + 1
  else if 2 * r < B then q
  else if q % 2 = 0 then q else q + 1

/-- Round the positive rational `a / b` to the nearest binary64 value
    (round-to-nearest, ties-to-even, 53 significand bits).  Rationals
    are built with `mkRat` so the definition evaluates by kernel
    reduction. -/
def fp64RoundPos (a b : Nat) : ℚ :=
  let e : Int := if b ≤ a then (natLog2 (a / b) : Int) else -(minPow a b : Int)
  if e ≤ 52 then
    mkRat (roundNearestEven (a * 2 ^ (52 - e).toNat) b) (2 ^ (52 - e).toNat)
  else
    ((roundNearestEven a (b * 2 ^ (e - 52).toNat) * 2 ^ (e - 52).toNat : Nat) : ℚ)

/-- Round a rational to the nearest binary64 value. -/
def fp64Round (q : ℚ) : ℚ :=
  if q = 0 then 0
  else if q < 0 then -fp64RoundPos (-q).num.toNat (-q).den
  else fp64RoundPos q.num.toNat q.den

/-- Model of JS `Number(s)` restricted to the string shapes the source
    feeds it: an optional `'-'` sign followed by a nonempty run of
    decimal digits with an optional `'.'`-separated fractional digit
    run (exactly the output language of `BigInt.toString(10)` and of
    `formatUnits`).  Returns `none` where JS would produce `NaN`. -/
def jsParseNumber (s : String) : Option ℚ :=
  let (sign, cs) :=
    match s.data with
    | '-' :: rest => (true, rest)
    | cs => (false, cs)
  let (w, f) := splitWholeFrac cs
  if isDigits1 w && isDigits0 f && !(cs.contains '.' && f.isEmpty) then
    let q : ℚ :=
      mkRat (decDigitsVal w * 10 ^ f.length + decDigitsVal f) (10 ^ f.length)
    some (fp64Round (if sign then -q else q))
  else
    none

/-- JS `isNaN(Number(s))` for the string shapes above. -/
def jsNumberIsNaN (s : String) : Bool := (jsParseNumber s).isNone


/-! ## JSON values

The payloads the dispatcher sends and receives.  JS `number` values are
carried as exact rationals (see the binary64 model above); `undefined`
never appears inside a JSON payload, so absent fields are represented
by failed lookups rather than a constructor. -/

/-- A JSON value as handled by the provider and the normalizer. -/
inductive JValue where
  | jnull
  | jbool (b : Bool)
  | jnum (q : ℚ)
  | jstr (s : String)
  | jarr (elems : List JValue)
  | jobj (fields : List (String × JValue))
deriving Repr

/-- JS `typeof v === 'object'` for a JSON value: `null`, arrays and
    objects (JS `typeof null` is `'object'`). -/
def JValue.isObjLike : JValue → Bool
  | .jnull | .jarr _ | .jobj _ => true
  | _ => false

/-- JS truthiness of a JSON value (`null`, `false`, `0`, `""` and `NaN`
    are falsy; `NaN` does not arise as a payload value here). -/
def jsTruthy : JValue → Bool
  | .jnull => false
  | .jbool b => b
  | .jnum q => q ≠ 0
  | .jstr s => !s.isEmpty
  | .jarr _ => true
  | .jobj _ => true

/-- JS property access `v[key]`: `none` models `undefined` (also for
    access on non-objects, where JS yields `undefined` for the field
    names used here). -/
def jsField (v : JValue) (key : String) : Option JValue :=
  match v with
  | .jobj fields => fields.lookup key
  | _ => none

/-- JS optional chaining `v?.k1?.k2`. -/
def jsField2 (v : JValue) (k1 k2 : String) : Option JValue :=
  (jsField v k1).bind fun w => jsField w k2

/-- JS truthiness of a possibly-`undefined` value. -/
def jsTruthyOpt : Option JValue → Bool
  | none => false
  | some v => jsTruthy v

/-- JS `a || b` for a possibly-`undefined` left operand. -/
def jsOr (a : Option JValue) (b : JValue) : JValue :=
  match a with
  | some v => if jsTruthy v then v else b
  | none => b


/-! ## src/utils.ts -/

/-- The exceptions thrown by the numeric layer.  `message` below renders
    the corresponding JS `Error.message`. -/
inductive JsErr where
  /-- `hexToDecimalString: invalid hex string "..."` -/
  | invalidHex (input : String)
  /-- JS `SyntaxError`/`RangeError` from `BigInt(...)`. -/
  | bigintSyntax (input : String)
  /-- `parseUnits: invalid numeric value "..."` -/
  | invalidNumeric (input : String)
  /-- `parseUnits: too many decimal places (max ...) in "..."` — the
      spec's `OverflowPrecision` error. -/
  | overflowPrecision (max : Nat) (input : String)
deriving DecidableEq, Repr

/-- The `Error.message` text of each exception. -/
def JsErr.message : JsErr → String
  | .invalidHex s => "hexToDecimalString: invalid hex string \"" ++ s ++ "\""
  | .bigintSyntax s => "Cannot convert " ++ s ++ " to a BigInt"
  | .invalidNumeric s => "parseUnits: invalid numeric value \"" ++ s ++ "\""
  | .overflowPrecision m s =>
      "parseUnits: too many decimal places (max " ++ natToDec m ++ ") in \"" ++ s ++ "\""

/-- JS `BigInt(s)` on a string: trims, accepts `""` as 0, a `0x`/`0X`
    hex literal, or an optionally signed decimal digit run; throws
    otherwise. -/
def jsBigIntOfString (s : String) : Except JsErr Int :=
  match (jsTrim s).data with
  | [] => .ok 0
  | '0' :: 'x' :: rest =>
      if !rest.isEmpty && rest.all isAnyHexDigit then .ok (hexDigitsVal rest)
      else .error (.bigintSyntax s)
  | '0' :: 'X' :: rest =>
      if !rest.isEmpty && rest.all isAnyHexDigit then .ok (hexDigitsVal rest)
      else .error (.bigintSyntax s)
  | '-' :: rest =>
      if isDigits1 rest then .ok (-(decDigitsVal rest : Int))
      else .error (.bigintSyntax s)
  | cs =>
      if isDigits1 cs then .ok (decDigitsVal cs)
      else .error (.bigintSyntax s)

/-- utils.ts `hexToDecimalString` (the active definition, lines
    131–143): trim and lowercase, `"0x"` yields the number 0, ensure a
    `0x` prefix, validate `^0x[0-9a-f]+$`, convert through `BigInt` to
    a decimal string `asDec`, and return
    `isNaN(Number(asDec)) ? asDec : Number(asDec)`. -/
def hexToDecimalString (hex : String) : Except JsErr JValue :=
  let raw := jsToLower (jsTrim hex)
  if raw = "0x" then .ok (.jnum 0)
  else
    let normalized := if startsWith0x raw then raw else "0x" ++ raw
    match normalized.data with
    | '0' :: 'x' :: rest =>
        if !rest.isEmpty && rest.all isLowerHexDigit then
          let asDec := natToDec (hexDigitsVal rest)
          .ok (match jsParseNumber asDec with
               | none => .jstr asDec
               | some q => .jnum q)
        else .error (.invalidHex hex)
    | _ => .error (.invalidHex hex)

/-- utils.ts `normalizeHexField` (lines 149–152): `"0x"` yields `"0"`,
    otherwise `BigInt(hex).toString(10)`; the `key` parameter is unused
    by this version. -/
def normalizeHexField (_key : String) (hex : String) : Except JsErr String :=
  if hex = "0x" then .ok "0"
  else (jsBigIntOfString hex).map intToDec

/-- JS `Number.prototype.toFixed(f)`: `n` is the integer with
    `n / 10^f` closest to `|x|`, ties resolved to the larger `n`, then
    rendered with exactly `f` fractional digits. -/
def jsToFixed (q : ℚ) (f : Nat) : String :=
  let a := q.num.natAbs
  let b := q.den
  let n := (a * 10 ^ f * 2 + b) / (2 * b)
  (if q < 0 then "-" else "") ++ natToDec (n / 10 ^ f) ++
    (if f = 0 then ""
     else "." ++ (⟨padStartZeros f (natToDec (n % 10 ^ f)).data⟩ : String))

/-- utils.ts `parseUnits` (lines 166–193) restricted to the computed
    string `str`: split on `'.'` into whole and fractional parts,
    validate `^\d+$` / `^\d*$`, reject fractional parts longer than
    `decimals` (the spec's `OverflowPrecision`), then return
    `'0x' + (whole * 10^decimals + frac * 10^(decimals-len)).toString(16)`.
    `WEI_FACTOR = 10^DEFAULT_DECIMALS`, so the source's factor choice is
    `10^decimals` in both branches. -/
def parseUnitsCore (str : String) (decimals : Nat) : Except JsErr String :=
  let (wholePart, fracPart) := splitWholeFrac str.data
  if !(isDigits1 wholePart && isDigits0 fracPart) then
    .error (.invalidNumeric str)
  else if decimals < fracPart.length then
    .error (.overflowPrecision decimals str)
  else
    let factor := 10 ^ decimals
    let whole := decDigitsVal wholePart * factor
    let frac := decDigitsVal (padEndZeros decimals fracPart)
    .ok ("0x" ++ natToHex (whole + frac))

/-- utils.ts `parseUnits` on a `number | string` value: a number is
    first rendered via `value.toFixed(decimals)`, a string via
    `value.toString()` (itself). -/
def parseUnits (value : JValue) (decimals : Nat) : Except JsErr String :=
  match value with
  | .jnum q => parseUnitsCore (jsToFixed q decimals) decimals
  | .jstr s => parseUnitsCore s decimals
  | _ => .error (.invalidNumeric "")

/-- utils.ts `formatUnits` (lines 216–234): convert the value to a
    BigInt (both branches of the source's ternary are `BigInt(value)`),
    split at `10^decimals` with JS BigInt truncating division and
    remainder, render the fraction `padStart(decimals, '0')` with
    trailing zeros stripped, and return `"<int>"` or `"<int>.<frac>"`.
    A JS number converts through `BigInt(number)`, which requires an
    integral value. -/
def formatUnits (value : JValue) (decimals : Nat) : Except JsErr String := do
  let big : Int ←
    match value with
    | .jstr s => jsBigIntOfString s
    | .jnum q => if q.den = 1 then .ok q.num else .error (.bigintSyntax (jsToFixed q 0))
    | _ => .error (.bigintSyntax "")
  let factor : Int := 10 ^ decimals
  let integer := big.tdiv factor
  let fraction := big.tmod factor
  let fracStr := stripTrailingZeros (padStartZeros decimals (intToDec fraction).data)
  pure (if !fracStr.isEmpty then intToDec integer ++ "." ++ (⟨fracStr⟩ : String)
        else intToDec integer)

/-- utils.ts `weiToNec`: `formatUnits(value, NEC_DECIMALS)` with
    `NEC_DECIMALS = 18`. -/
def weiToNec (value : JValue) : Except JsErr String := formatUnits value 18

/-- The long-hex shape `^0x[a-fA-F0-9]{40,}$` that `normalizeResponse`
    leaves untouched at the top level. -/
def isLongHex (s : String) : Bool :=
  match s.data with
  | '0' :: 'x' :: rest => 40 ≤ rest.length && rest.all isAnyHexDigit
  | _ => false

/-- The closed set of identifier field names that `normalizeResponse`
    copies verbatim when their value is a `0x`-prefixed string. -/
def identifierFields : List String :=
  ["address", "hash", "from", "to", "transactionHash", "blockHash", "contractAddress"]

mutual

/-- utils.ts `normalizeResponse` (the active definition, lines
    293–330): `null` becomes `{}`; booleans pass through; a top-level
    string of long-hex shape passes through and any other string goes
    through `hexToDecimalString`; arrays map object-like elements
    (`typeof v === 'object'`, which includes `null`) recursively and
    keep the rest; any other non-object (e.g. a number) falls through
    to `Object.entries`, which is empty, giving `{}`; objects are
    rebuilt field by field. -/
def normalizeResponse : JValue → Except JsErr JValue
  | .jnull => .ok (.jobj [])
  | .jbool b => .ok (.jbool b)
  | .jstr s => if isLongHex s then .ok (.jstr s) else hexToDecimalString s
  | .jnum _ => .ok (.jobj [])
  | .jarr xs => do pure (.jarr (← normalizeElems xs))
  | .jobj fs => do pure (.jobj (← normalizeFields fs))

/-- The array-element map
    `resp.map(v => (typeof v === 'object' ? normalizeResponse(v) : v))`. -/
def normalizeElems : List JValue → Except JsErr (List JValue)
  | [] => .ok []
  | v :: vs => do
      let v' ← if v.isObjLike then normalizeResponse v else pure v
      pure (v' :: (← normalizeElems vs))

/-- The `for (const [key, val] of Object.entries(resp))` loop body,
    applied in order: `out[key]` is `normalizeField key val`. -/
def normalizeFields : List (String × JValue) → Except JsErr (List (String × JValue))
  | [] => .ok []
  | (k, v) :: fs => do
      let v' ← normalizeField k v
      pure ((k, v') :: (← normalizeFields fs))

/-- One field of the object case: a `0x`-prefixed string value is
    copied verbatim for identifier field names and otherwise goes
    through `normalizeHexField`; array values map object-like elements
    recursively; non-null object values recurse (the source calls
    `normalizeResponse(val)`, inlined here to its object case); every
    other value (including `null`, which fails the source's
    `val && typeof val === 'object'` test) is copied verbatim. -/
def normalizeField (key : String) (v : JValue) : Except JsErr JValue :=
  match v with
  | .jstr s =>
      if startsWith0x s then
        if key ∈ identifierFields then .ok (.jstr s)
        else do pure (.jstr (← normalizeHexField key s))
      else .ok (.jstr s)
  | .jarr xs => do pure (.jarr (← normalizeElems xs))
  | .jobj fs => do pure (.jobj (← normalizeFields fs))
  | other => .ok other

end

/-! ## The Provider JSON-RPC dispatcher

Embedding of the `Provider` class: envelope construction with the
per-instance `idCounter`, single-call response processing (`rpc`), and
batch response correlation (`batchRpc`).  The network transport and the
middleware lists (empty on a freshly constructed provider, which is the
configuration the claims address) are abstracted: `rpc` takes the
post-middleware response value, and `batchRpc` takes the
post-transmission outcome — either the response data or the caught
transport error's message. -/

/-- One element of a `batchRpc` argument: `{ method, params? }`. -/
structure RpcCall where
  method : String
  params : Option (List JValue)

/-- A JSON-RPC request object `{ jsonrpc: '2.0', id, method, params }`. -/
structure Envelope where
  jsonrpc : String
  id : Nat
  method : String
  params : List JValue

/-- The per-instance mutable state used when building envelopes:
    `private idCounter = 1`. -/
structure ProviderState where
  idCounter : Nat

/-- The freshly constructed provider's counter state. -/
def ProviderState.initial : ProviderState := ⟨1⟩

/-- Envelope construction in `Provider.rpc`:
    `{ jsonrpc: '2.0', id: this.idCounter++, method, params }` —
    the post-increment uses the old counter value and advances it. -/
def rpcEnvelope (st : ProviderState) (method : String) (params : List JValue) :
    Envelope × ProviderState :=
  ({ jsonrpc := "2.0", id := st.idCounter, method := method, params := params },
   ⟨st.idCounter + 1⟩)

/-- Envelope construction in `Provider.batchRpc`:
    `calls.map((call, i) => ({ jsonrpc: '2.0', id: this.idCounter + i,
    method: call.method, params: call.params || [] }))` — the counter
    is read but never advanced. -/
def batchEnvelopes (st : ProviderState) (calls : List RpcCall) :
    List Envelope × ProviderState :=
  (calls.enum.map fun ic =>
    { jsonrpc := "2.0", id := st.idCounter + ic.1, method := ic.2.method,
      params := ic.2.params.getD [] },
   st)

/-- How a single call can fail after the response middleware ran. -/
inductive CallFailure where
  /-- `new RpcError(response?.error?.message, response?.error?.code,
      response?.error?.data)`. -/
  | rpcError (message : Option JValue) (code : Option JValue) (data : Option JValue)
  /-- An exception thrown by `normalizeResponse`/`weiToNec`. -/
  | thrown (e : JsErr)

/-- `Provider.rpc` steps 5–6 (lines 438–441): if `response?.error` is
    truthy, throw an `RpcError` carrying the upstream `message`, `code`
    and `data`; otherwise return
    `normalizeResponse(response?.result || response)`. -/
def rpc (response : JValue) : Except CallFailure JValue :=
  if jsTruthyOpt (jsField response "error") then
    .error (.rpcError (jsField2 response "error" "message")
      (jsField2 response "error" "code") (jsField2 response "error" "data"))
  else
    (normalizeResponse (jsOr (jsField response "result") response)).mapError .thrown

/-- The comparator key of `results.sort((a, b) => a.id - b.id)`: the
    numeric `id` of a response object.  A missing or non-numeric `id`
    makes the JS comparator yield `NaN`, which the sort treats as 0
    (equal); here such responses carry key 0. -/
def respIdKey (r : JValue) : ℚ :=
  match jsField r "id" with
  | some (.jnum q) => q
  | _ => 0

/-- `results.sort((a, b) => a.id - b.id)` — a stable sort by ascending
    numeric `id`, as ECMAScript requires of `Array.prototype.sort`. -/
def sortById (rs : List JValue) : List JValue :=
  List.insertionSort (fun a b => respIdKey a ≤ respIdKey b) rs

instance : IsTotal JValue (fun a b => respIdKey a ≤ respIdKey b) :=
  ⟨fun a b => le_total (respIdKey a) (respIdKey b)⟩

instance : IsTrans JValue (fun a b => respIdKey a ≤ respIdKey b) :=
  ⟨fun _ _ _ hab hbc => le_trans hab hbc⟩

/-- One slot of the `batchRpc` result map: `{ error: res.error }` for a
    truthy `res.error`, else `normalizeResponse(res.result || res)`. -/
def slotOf (res : JValue) : Except JsErr JValue :=
  match jsField res "error" with
  | some e =>
      if jsTruthy e then .ok (.jobj [("error", e)])
      else normalizeResponse (jsOr (jsField res "result") res)
  | none => normalizeResponse (jsOr (jsField res "result") res)

/-- `Provider.batchRpc` after envelope construction (lines 469–485):
    on a transport-level failure the catch block returns one
    `{ error: message }` slot per input call; otherwise the response
    data is coerced to an array (`Array.isArray(data) ? data : [data]`),
    sorted by `id` ascending, and mapped to per-slot results; an
    exception thrown while processing (e.g. by `normalizeResponse`) is
    caught by the same catch block. -/
def batchRpc (calls : List RpcCall) (transport : Except String JValue) :
    List JValue :=
  match transport with
  | .error e => calls.map fun _ => .jobj [("error", .jstr e)]
  | .ok data =>
      let results := match data with | .jarr xs => xs | v => [v]
      match (sortById results).mapM slotOf with
      | .ok slots => slots
      | .error err => calls.map fun _ => .jobj [("error", .jstr err.message)]

/-- `Provider.getBalance` (lines 571–575) after the transport returned
    `response`: `balance = await this.rpc(...)`,
    `convertedBalance = weiToNec(balance)`, and
    `return isNaN(Number(convertedBalance)) ? 0 : Number(convertedBalance)`. -/
def getBalance (response : JValue) : Except CallFailure JValue := do
  let balance ← rpc response
  let convertedBalance ← (weiToNec balance).mapError CallFailure.thrown
  pure (match jsParseNumber convertedBalance with
        | none => .jnum 0
        | some q => .jnum q)

/-- The normalized decimal string with integer value `w` and fractional
    digit characters `fds`: `"<w>"` or `"<w>.<fds>"`.  As `natToDec`
    renders canonically, this ranges over exactly the decimal strings
    with no superfluous leading zeros in the integer part. -/
def decStr (w : Nat) (fds : List Char) : String :=
  if fds.isEmpty then natToDec w
  else natToDec w ++ "." ++ (⟨fds⟩ : String)


/-! ## Supporting lemmas -/

theorem isDigits0_no_dot {cs : List Char} (h : isDigits0 cs = true) : '.' ∉ cs := by
  intro hmem
  have hd := (List.all_eq_true.mp h) _ hmem
  simp [isDecDigit] at hd

theorem splitOnDot_no_dot {w : List Char} (h : '.' ∉ w) : splitOnDot w = [w] := by
  induction w with
  | nil => rfl
  | cons c rest ih =>
      have hc : ¬(c = '.') := fun hc => h (hc ▸ List.mem_cons_self c rest)
      have hr : '.' ∉ rest := fun hm => h (List.mem_cons_of_mem c hm)
      simp [splitOnDot, hc, ih hr]

theorem splitOnDot_append {w f : List Char} (h : '.' ∉ w) :
    splitOnDot (w ++ '.' :: f) = w :: splitOnDot f := by
  induction w with
  | nil => simp [splitOnDot]
  | cons c rest ih =>
      have hc : ¬(c = '.') := fun hc => h (hc ▸ List.mem_cons_self c rest)
      have hr : '.' ∉ rest := fun hm => h (List.mem_cons_of_mem c hm)
      have := ih hr
      simp only [List.cons_append, splitOnDot, List.append_eq, this, hc, if_false]

theorem splitWholeFrac_append {w f : List Char} (hw : '.' ∉ w) (hf : '.' ∉ f) :
    splitWholeFrac (w ++ '.' :: f) = (w, f) := by
  simp [splitWholeFrac, splitOnDot_append hw, splitOnDot_no_dot hf]

theorem splitWholeFrac_no_dot {w : List Char} (hw : '.' ∉ w) :
    splitWholeFrac w = (w, []) := by
  simp [splitWholeFrac, splitOnDot_no_dot hw]

theorem normalizeField_identifier_str {k : String} {s : String}
    (hk : k ∈ identifierFields) : normalizeField k (.jstr s) = .ok (.jstr s) := by
  cases h : startsWith0x s <;> simp [normalizeField, h, hk]

theorem normalizeFields_cons_ok {k : String} {v : JValue} {rest fs'}
    (h : normalizeFields ((k, v) :: rest) = .ok fs') :
    ∃ v' rest', normalizeField k v = .ok v' ∧ normalizeFields rest = .ok rest' ∧
      fs' = (k, v') :: rest' := by
  cases hv : normalizeField k v with
  | error e =>
      simp [normalizeFields, hv, bind, Except.bind] at h
  | ok v' =>
      cases hrest : normalizeFields rest with
      | error e =>
          simp [normalizeFields, hv, hrest, bind, Except.bind, Functor.map,
            Except.map] at h
      | ok rest' =>
          refine ⟨v', rest', rfl, rfl, ?_⟩
          simp [normalizeFields, hv, hrest, bind, Except.bind, Functor.map,
            Except.map, pure, Except.pure] at h
          exact h.symm

theorem normalizeFields_keys : ∀ {fs fs'},
    normalizeFields fs = .ok fs' → fs'.map Prod.fst = fs.map Prod.fst := by
  intro fs
  induction fs with
  | nil =>
      intro fs' h
      simp [normalizeFields, pure, Except.pure] at h
      simp [← h]
  | cons kv rest ih =>
      intro fs' h
      obtain ⟨k, v⟩ := kv
      obtain ⟨v', rest', _, hrest, rfl⟩ := normalizeFields_cons_ok h
      simp [ih hrest]

theorem normalizeFields_mem : ∀ {fs fs'} {k : String} {v : JValue},
    normalizeFields fs = .ok fs' → (k, v) ∈ fs →
    ∃ v', normalizeField k v = .ok v' ∧ (k, v') ∈ fs' := by
  intro fs
  induction fs with
  | nil => intro fs' k v _ hm; cases hm
  | cons kv rest ih =>
      intro fs' k v h hm
      obtain ⟨k0, v0⟩ := kv
      obtain ⟨v0', rest', hv, hrest, rfl⟩ := normalizeFields_cons_ok h
      rcases List.mem_cons.mp hm with heq | hmem
      · injection heq with hk hv0
        subst hk; subst hv0
        exact ⟨v0', hv, List.mem_cons_self _ _⟩
      · obtain ⟨v', hv', hmem'⟩ := ih hrest hmem
        exact ⟨v', hv', List.mem_cons_of_mem _ hmem'⟩

theorem normalizeResponse_jobj_ok {fs fs'} (h : normalizeFields fs = .ok fs') :
    normalizeResponse (.jobj fs) = .ok (.jobj fs') := by
  simp [normalizeResponse, h, bind, Except.bind, pure, Except.pure]

theorem normalizeResponse_jobj_inv {fs out}
    (h : normalizeResponse (.jobj fs) = .ok out) :
    ∃ fs', normalizeFields fs = .ok fs' ∧ out = .jobj fs' := by
  cases hfs : normalizeFields fs with
  | error e => simp [normalizeResponse, hfs, bind, Except.bind] at h
  | ok fs' =>
      refine ⟨fs', rfl, ?_⟩
      simp [normalizeResponse, hfs, bind, Except.bind, pure, Except.pure] at h
      exact h.symm

/-! ### Digit characters -/

theorem char_eq_of_toNat {a b : Char} (h : a.toNat = b.toNat) : a = b := by
  have := congrArg Char.ofNat h
  rwa [Char.ofNat_toNat, Char.ofNat_toNat] at this

theorem toNat_digitChar {d : Nat} (h : d < 10) : (digitChar d).toNat = 48 + d := by
  have hv : Nat.isValidChar (48 + d) := Or.inl (by omega)
  unfold digitChar Char.ofNat
  rw [dif_pos hv]
  rfl

theorem charDigitVal_digitChar {d : Nat} (h : d < 10) :
    charDigitVal (digitChar d) = d := by
  simp [charDigitVal, toNat_digitChar h]

theorem isDecDigit_digitChar {d : Nat} (h : d < 10) :
    isDecDigit (digitChar d) = true := by
  simp only [isDecDigit, toNat_digitChar h]
  simp only [Bool.and_eq_true, decide_eq_true_eq]
  omega

theorem digitChar_ne_dot {d : Nat} (h : d < 10) : digitChar d ≠ '.' := by
  intro he
  have := congrArg Char.toNat he
  rw [toNat_digitChar h] at this
  have h46 : ('.').toNat = 46 := by decide
  omega

theorem digitChar_ne_zeroChar {d : Nat} (h0 : 0 < d) (h : d < 10) :
    digitChar d ≠ '0' := by
  intro he
  have := congrArg Char.toNat he
  rw [toNat_digitChar h] at this
  have h48 : ('0').toNat = 48 := by decide
  omega

theorem digitChar_charDigitVal {c : Char} (h : isDecDigit c = true) :
    digitChar (charDigitVal c) = c := by
  simp only [isDecDigit, Bool.and_eq_true, decide_eq_true_eq] at h
  have : 48 + charDigitVal c = c.toNat := by simp [charDigitVal]; omega
  rw [digitChar, this, Char.ofNat_toNat]

theorem charDigitVal_lt {c : Char} (h : isDecDigit c = true) :
    charDigitVal c < 10 := by
  simp only [isDecDigit, Bool.and_eq_true, decide_eq_true_eq] at h
  simp [charDigitVal]; omega

theorem charDigitVal_ne_zero {c : Char} (h : isDecDigit c = true) (h0 : c ≠ '0') :
    charDigitVal c ≠ 0 := by
  simp only [isDecDigit, Bool.and_eq_true, decide_eq_true_eq] at h
  intro hv
  apply h0
  apply char_eq_of_toNat
  have h48 : ('0').toNat = 48 := by decide
  simp [charDigitVal] at hv
  omega

theorem toNat_hexChar {d : Nat} (h : d < 16) :
    (hexChar d).toNat = if d < 10 then 48 + d else 87 + d := by
  by_cases hd : d < 10
  · have hv : Nat.isValidChar (48 + d) := Or.inl (by omega)
    simp only [hexChar, if_pos hd]
    unfold Char.ofNat
    rw [dif_pos hv]
    rfl
  · have hv : Nat.isValidChar (87 + d) := Or.inl (by omega)
    simp only [hexChar, if_neg hd]
    unfold Char.ofNat
    rw [dif_pos hv]
    rfl

theorem isAnyHexDigit_hexChar {d : Nat} (h : d < 16) :
    isAnyHexDigit (hexChar d) = true := by
  have := toNat_hexChar h
  by_cases hd : d < 10 <;>
    simp_all [isAnyHexDigit, isLowerHexDigit, isDecDigit] <;> omega

theorem hexDigitVal_hexChar {d : Nat} (h : d < 16) :
    hexDigitVal (hexChar d) = d := by
  have ht := toNat_hexChar h
  by_cases hd : d < 10
  · rw [if_pos hd] at ht
    have h1 : isDecDigit (hexChar d) = true := by
      simp only [isDecDigit, ht, Bool.and_eq_true, decide_eq_true_eq]
      omega
    simp only [hexDigitVal, h1, if_true, ht]
    omega
  · rw [if_neg hd] at ht
    have h1 : isDecDigit (hexChar d) = false := by
      simp only [isDecDigit, ht, Bool.and_eq_false_iff, decide_eq_false_iff_not]
      omega
    have h2 : (97 ≤ (hexChar d).toNat && (hexChar d).toNat ≤ 102) = true := by
      simp only [ht, Bool.and_eq_true, decide_eq_true_eq]
      omega
    simp only [hexDigitVal, h1, h2, Bool.false_eq_true, if_false, if_true]
    omega

theorem jsIsSpace_eq_false_of_ge {c : Char} (h : 48 ≤ c.toNat) :
    jsIsSpace c = false := by
  have hne : ∀ b : Char, b.toNat < 48 → c ≠ b := by
    intro b hb he
    rw [congrArg Char.toNat he] at h
    omega
  simp [jsIsSpace, hne ' ' (by decide), hne '\t' (by decide),
    hne '\n' (by decide), hne '\r' (by decide)]

theorem jsIsSpace_digitChar {d : Nat} (h : d < 10) :
    jsIsSpace (digitChar d) = false :=
  jsIsSpace_eq_false_of_ge (by rw [toNat_digitChar h]; omega)

theorem jsIsSpace_hexChar {d : Nat} (h : d < 16) :
    jsIsSpace (hexChar d) = false := by
  apply jsIsSpace_eq_false_of_ge
  rw [toNat_hexChar h]
  split <;> omega

/-! ### Rendering naturals and digit values -/

theorem natDigitsAux_dec (fuel : Nat) : ∀ (n : Nat) (acc : List Char), n ≤ fuel →
    natDigitsAux 10 fuel n acc = ((Nat.digits 10 n).map digitChar).reverse ++ acc := by
  induction fuel with
  | zero =>
      intro n acc h
      interval_cases n
      simp [natDigitsAux]
  | succ fuel ih =>
      intro n acc h
      cases n with
      | zero => simp [natDigitsAux]
      | succ m =>
          have hdiv : (m + 1) / 10 ≤ fuel := by
            have := Nat.div_lt_self (Nat.succ_pos m) (by norm_num : 1 < 10)
            omega
          rw [show natDigitsAux 10 (fuel + 1) (m + 1) acc
                = natDigitsAux 10 fuel ((m + 1) / 10)
                    (digitChar ((m + 1) % 10) :: acc) from rfl,
              ih _ _ hdiv,
              Nat.digits_def' (by norm_num : (1:ℕ) < 10) (Nat.succ_pos m)]
          simp

theorem natToDec_data (n : Nat) :
    (natToDec n).data
      = if n = 0 then ['0'] else ((Nat.digits 10 n).map digitChar).reverse := by
  by_cases h : n = 0
  · simp [natToDec, h]
  · simp only [natToDec, if_neg h]
    exact (natDigitsAux_dec n n [] le_rfl).trans (by simp)

theorem natDigitsAux_hex (fuel : Nat) : ∀ (n : Nat) (acc : List Char), n ≤ fuel →
    natDigitsAux 16 fuel n acc = ((Nat.digits 16 n).map hexChar).reverse ++ acc := by
  induction fuel with
  | zero =>
      intro n acc h
      interval_cases n
      simp [natDigitsAux]
  | succ fuel ih =>
      intro n acc h
      cases n with
      | zero => simp [natDigitsAux]
      | succ m =>
          have hdiv : (m + 1) / 16 ≤ fuel := by
            have := Nat.div_lt_self (Nat.succ_pos m) (by norm_num : 1 < 16)
            omega
          rw [show natDigitsAux 16 (fuel + 1) (m + 1) acc
                = natDigitsAux 16 fuel ((m + 1) / 16)
                    (hexChar ((m + 1) % 16) :: acc) from rfl,
              ih _ _ hdiv,
              Nat.digits_def' (by norm_num : (1:ℕ) < 16) (Nat.succ_pos m)]
          simp

theorem natToHex_data (n : Nat) :
    (natToHex n).data
      = if n = 0 then ['0'] else ((Nat.digits 16 n).map hexChar).reverse := by
  by_cases h : n = 0
  · simp [natToHex, h]
  · simp only [natToHex, if_neg h]
    exact (natDigitsAux_hex n n [] le_rfl).trans (by simp)

theorem decDigitsVal_foldl (ds : List Char) : ∀ v : Nat,
    ds.foldl (fun v c => v * 10 + charDigitVal c) v
      = v * 10 ^ ds.length + Nat.ofDigits 10 ((ds.map charDigitVal).reverse) := by
  induction ds with
  | nil => intro v; simp [Nat.ofDigits]
  | cons c rest ih =>
      intro v
      rw [List.foldl_cons, ih]
      simp only [List.map_cons, List.reverse_cons, Nat.ofDigits_append,
        List.length_cons, List.length_reverse, List.length_map]
      simp [Nat.ofDigits, pow_succ]
      ring

theorem decDigitsVal_eq_ofDigits (ds : List Char) :
    decDigitsVal ds = Nat.ofDigits 10 ((ds.map charDigitVal).reverse) := by
  simpa using decDigitsVal_foldl ds 0

theorem hexDigitsVal_foldl (ds : List Char) : ∀ v : Nat,
    ds.foldl (fun v c => v * 16 + hexDigitVal c) v
      = v * 16 ^ ds.length + Nat.ofDigits 16 ((ds.map hexDigitVal).reverse) := by
  induction ds with
  | nil => intro v; simp [Nat.ofDigits]
  | cons c rest ih =>
      intro v
      rw [List.foldl_cons, ih]
      simp only [List.map_cons, List.reverse_cons, Nat.ofDigits_append,
        List.length_cons, List.length_reverse, List.length_map]
      simp [Nat.ofDigits, pow_succ]
      ring

theorem hexDigitsVal_eq_ofDigits (ds : List Char) :
    hexDigitsVal ds = Nat.ofDigits 16 ((ds.map hexDigitVal).reverse) := by
  simpa using hexDigitsVal_foldl ds 0

theorem decDigitsVal_append (a b : List Char) :
    decDigitsVal (a ++ b) = decDigitsVal a * 10 ^ b.length + decDigitsVal b := by
  simp only [decDigitsVal, List.foldl_append]
  rw [decDigitsVal_foldl, ← decDigitsVal_eq_ofDigits]
  rfl

theorem decDigitsVal_replicate_zero (k : Nat) :
    decDigitsVal (List.replicate k '0') = 0 := by
  induction k with
  | zero => rfl
  | succ k ih =>
      rw [List.replicate_succ', decDigitsVal_append, ih]
      decide

/-! ### Round-trips between rendering and parsing -/

theorem decDigitsVal_natToDec (n : Nat) : decDigitsVal (natToDec n).data = n := by
  rw [natToDec_data]
  by_cases h : n = 0
  · simp [h]; decide
  · rw [if_neg h, decDigitsVal_eq_ofDigits, List.map_reverse, List.reverse_reverse,
      List.map_map]
    have hcongr : (Nat.digits 10 n).map (charDigitVal ∘ digitChar)
        = (Nat.digits 10 n).map id := by
      apply List.map_congr_left
      intro x hx
      exact charDigitVal_digitChar (Nat.digits_lt_base (by norm_num) hx)
    rw [hcongr, List.map_id, Nat.ofDigits_digits]

theorem hexDigitsVal_natToHex (n : Nat) : hexDigitsVal (natToHex n).data = n := by
  rw [natToHex_data]
  by_cases h : n = 0
  · simp [h]; decide
  · rw [if_neg h, hexDigitsVal_eq_ofDigits, List.map_reverse, List.reverse_reverse,
      List.map_map]
    have hcongr : (Nat.digits 16 n).map (hexDigitVal ∘ hexChar)
        = (Nat.digits 16 n).map id := by
      apply List.map_congr_left
      intro x hx
      exact hexDigitVal_hexChar (Nat.digits_lt_base (by norm_num) hx)
    rw [hcongr, List.map_id, Nat.ofDigits_digits]

theorem decDigitsVal_lt {f : List Char} (hf : isDigits0 f = true) :
    decDigitsVal f < 10 ^ f.length := by
  rw [decDigitsVal_eq_ofDigits]
  have hlen : ((f.map charDigitVal).reverse).length = f.length := by simp
  rw [← hlen]
  apply Nat.ofDigits_lt_base_pow_length (by norm_num)
  intro x hx
  rw [List.mem_reverse] at hx
  obtain ⟨c, hc, rfl⟩ := List.mem_map.mp hx
  exact charDigitVal_lt (List.all_eq_true.mp hf _ hc)

/-! ### Canonical digit strings -/

/-- A digit string with a nonzero leading digit is recovered exactly by
    rendering its value. -/
theorem natToDec_of_canonical {ds : List Char} (hd : isDigits0 ds = true)
    (hne : ds ≠ []) (hhead : ds.head hne ≠ '0') :
    ((Nat.digits 10 (decDigitsVal ds)).map digitChar).reverse = ds := by
  have hall : ∀ l ∈ (ds.map charDigitVal).reverse, l < 10 := by
    intro x hx
    rw [List.mem_reverse] at hx
    obtain ⟨c, hc, rfl⟩ := List.mem_map.mp hx
    exact charDigitVal_lt (List.all_eq_true.mp hd _ hc)
  have hmapne : (ds.map charDigitVal).reverse ≠ [] := by
    simp [hne]
  have hlast : ∀ (h : (ds.map charDigitVal).reverse ≠ []),
      ((ds.map charDigitVal).reverse).getLast h ≠ 0 := by
    intro h
    rw [List.getLast_reverse]
    rw [List.head_map]
    exact charDigitVal_ne_zero (List.all_eq_true.mp hd _ (List.head_mem hne)) hhead
  rw [decDigitsVal_eq_ofDigits,
    Nat.digits_ofDigits 10 (by norm_num) _ hall hlast, List.map_reverse,
    List.map_map]
  have hcongr : ds.map (digitChar ∘ charDigitVal) = ds.map id := by
    apply List.map_congr_left
    intro c hc
    exact digitChar_charDigitVal (List.all_eq_true.mp hd _ hc)
  rw [hcongr, List.map_id, List.reverse_reverse]

/-- Every digit string splits as leading zeros followed by its
    canonical rendering. -/
theorem digit_string_decomposition {fds : List Char} (hd : isDigits0 fds = true)
    (hne : fds ≠ []) (hlast : fds.getLast hne ≠ '0') :
    fds = List.replicate (fds.takeWhile (· = '0')).length '0'
            ++ ((Nat.digits 10 (decDigitsVal fds)).map digitChar).reverse ∧
    0 < decDigitsVal fds := by
  set core := fds.dropWhile (· = '0') with hcore
  have hsplit : fds.takeWhile (· = '0') ++ core = fds :=
    List.takeWhile_append_dropWhile _ _
  have htake : fds.takeWhile (· = '0')
      = List.replicate (fds.takeWhile (· = '0')).length '0' := by
    apply List.eq_replicate_of_mem
    intro b hb
    have := List.mem_takeWhile_imp hb
    simpa using this
  have hcorene : core ≠ [] := by
    intro hnil
    have hall0 : ∀ x ∈ fds, x = '0' := by
      intro x hx
      have := List.dropWhile_eq_nil_iff.mp hnil x hx
      simpa using this
    exact hlast (hall0 _ (List.getLast_mem hne))
  have hcorehead : core.head hcorene ≠ '0' := by
    have := List.head_dropWhile_not (fun x => decide (x = '0')) fds hcorene
    simpa using this
  have hcored : isDigits0 core = true := by
    rw [isDigits0, List.all_eq_true]
    intro c hc
    exact List.all_eq_true.mp hd _ ((List.dropWhile_sublist _).subset hc)
  have hval : decDigitsVal fds = decDigitsVal core := by
    conv_lhs => rw [← hsplit]
    rw [htake, decDigitsVal_append, decDigitsVal_replicate_zero]
    ring
  have hcanon := natToDec_of_canonical hcored hcorene hcorehead
  constructor
  · rw [hval, hcanon, ← htake]
    exact hsplit.symm
  · rw [hval]
    rcases Nat.eq_zero_or_pos (decDigitsVal core) with h0 | hpos
    · exfalso
      have : ((Nat.digits 10 (decDigitsVal core)).map digitChar).reverse = [] := by
        rw [h0]
        simp
      rw [hcanon] at this
      exact hcorene this
    · exact hpos

/-! ### Stripping and padding -/

theorem dropWhile_replicate_append (p : Char → Bool) (c : Char) (hp : p c = true)
    (k : Nat) (l : List Char) :
    (List.replicate k c ++ l).dropWhile p = l.dropWhile p := by
  induction k with
  | zero => simp
  | succ k ih => simp [List.replicate_succ, List.dropWhile_cons, hp, ih]

theorem stripTrailingZeros_append_zeros (A : List Char) (k : Nat) :
    stripTrailingZeros (A ++ List.replicate k '0') = stripTrailingZeros A := by
  unfold stripTrailingZeros
  rw [List.reverse_append, List.reverse_replicate,
    dropWhile_replicate_append _ _ (by decide)]

theorem stripTrailingZeros_eq_self {A : List Char}
    (h : A.getLast? ≠ some '0') : stripTrailingZeros A = A := by
  unfold stripTrailingZeros
  cases hrev : A.reverse with
  | nil =>
      have : A = [] := by simpa using congrArg List.reverse hrev
      simp [this]
  | cons c rest =>
      have hc : c ≠ '0' := by
        intro hc0
        apply h
        rw [← List.head?_reverse, hrev, hc0]
        rfl
      simp only [List.dropWhile_cons, hc, decide_False, Bool.false_eq_true,
        if_false]
      rw [← hrev, List.reverse_reverse]

theorem stripTrailingZeros_replicate (k : Nat) :
    stripTrailingZeros (List.replicate k '0') = [] := by
  have := stripTrailingZeros_append_zeros [] k
  simp only [List.nil_append] at this
  rw [this]
  rfl

/-! ### Facts about rendered numerals -/

theorem natToDec_all_digits (n : Nat) : isDigits1 (natToDec n).data = true := by
  rw [isDigits1, natToDec_data]
  by_cases h : n = 0
  · simp [h]
    decide
  · rw [if_neg h]
    simp only [Bool.and_eq_true, Bool.not_eq_true']
    constructor
    · simp [List.isEmpty_iff, Nat.digits_ne_nil_iff_ne_zero, h]
    · rw [List.all_eq_true]
      intro c hc
      rw [List.mem_reverse] at hc
      obtain ⟨d, hd, rfl⟩ := List.mem_map.mp hc
      exact isDecDigit_digitChar (Nat.digits_lt_base (by norm_num) hd)

theorem natToDec_isDigits0 (n : Nat) : isDigits0 (natToDec n).data = true :=
  Bool.and_elim_right (natToDec_all_digits n)

theorem natToDec_no_dot (n : Nat) : '.' ∉ (natToDec n).data :=
  isDigits0_no_dot (natToDec_isDigits0 n)

theorem natToHex_all_hex (n : Nat) :
    ∀ c ∈ (natToHex n).data, isAnyHexDigit c = true := by
  intro c hc
  rw [natToHex_data] at hc
  by_cases h : n = 0
  · rw [if_pos h] at hc
    rw [List.mem_singleton] at hc
    subst hc
    decide
  · rw [if_neg h, List.mem_reverse] at hc
    obtain ⟨d, hd, rfl⟩ := List.mem_map.mp hc
    exact isAnyHexDigit_hexChar (Nat.digits_lt_base (by norm_num) hd)

theorem natToHex_not_empty (n : Nat) : ((natToHex n).data.isEmpty) = false := by
  rw [natToHex_data]
  by_cases h : n = 0
  · simp [h]
  · simp [h, List.isEmpty_iff, Nat.digits_ne_nil_iff_ne_zero]

theorem isAnyHexDigit_toNat_ge {c : Char} (h : isAnyHexDigit c = true) :
    48 ≤ c.toNat := by
  simp only [isAnyHexDigit, isLowerHexDigit, isDecDigit, Bool.or_eq_true,
    Bool.and_eq_true, decide_eq_true_eq] at h
  omega

theorem dropWhile_eq_self_of_false {p : Char → Bool} {l : List Char}
    (h : ∀ c ∈ l, p c = false) : l.dropWhile p = l := by
  cases l with
  | nil => rfl
  | cons c rest =>
      rw [List.dropWhile_cons, h c (List.mem_cons_self c rest)]
      simp

theorem jsTrim_eq_self {s : String} (h : ∀ c ∈ s.data, jsIsSpace c = false) :
    jsTrim s = s := by
  apply String.ext
  show ((s.data.dropWhile jsIsSpace).reverse.dropWhile jsIsSpace).reverse = s.data
  rw [dropWhile_eq_self_of_false h,
    dropWhile_eq_self_of_false (fun c hc => h c (List.mem_reverse.mp hc)),
    List.reverse_reverse]

theorem jsBigIntOfString_0x_natToHex (n : Nat) :
    jsBigIntOfString ("0x" ++ natToHex n) = .ok (n : Int) := by
  have hdata : ("0x" ++ natToHex n).data = '0' :: 'x' :: (natToHex n).data := by
    rw [String.data_append]
    rfl
  have hs : ∀ c ∈ ("0x" ++ natToHex n).data, jsIsSpace c = false := by
    rw [hdata]
    intro c hc
    rcases List.mem_cons.mp hc with rfl | hc
    · decide
    rcases List.mem_cons.mp hc with rfl | hc
    · decide
    · exact jsIsSpace_eq_false_of_ge (isAnyHexDigit_toNat_ge (natToHex_all_hex n c hc))
  have hcond : (!(natToHex n).data.isEmpty && (natToHex n).data.all isAnyHexDigit)
      = true := by
    rw [natToHex_not_empty]
    simp only [Bool.not_false, Bool.true_and, List.all_eq_true]
    exact natToHex_all_hex n
  rw [jsBigIntOfString, jsTrim_eq_self hs, hdata]
  simp only [hcond, if_true]
  rw [hexDigitsVal_natToHex]

theorem decDigitsVal_padEnd {s : Nat} {fds : List Char} :
    decDigitsVal (padEndZeros s fds)
      = decDigitsVal fds * 10 ^ (s - fds.length) := by
  rw [padEndZeros, decDigitsVal_append, decDigitsVal_replicate_zero,
    List.length_replicate]
  omega

theorem ofDigits_replicate_zero (b k : Nat) :
    Nat.ofDigits b (List.replicate k 0) = 0 := by
  induction k with
  | zero => rfl
  | succ k ih => simp [List.replicate_succ, Nat.ofDigits_cons, ih]

theorem digits_mul_pow_ten {v : Nat} (hv : v ≠ 0) (k : Nat) :
    Nat.digits 10 (v * 10 ^ k) = List.replicate k 0 ++ Nat.digits 10 v := by
  have hdig : Nat.digits 10 v ≠ [] := Nat.digits_ne_nil_iff_ne_zero.mpr hv
  have h1 : Nat.ofDigits 10 (List.replicate k 0 ++ Nat.digits 10 v)
      = v * 10 ^ k := by
    rw [Nat.ofDigits_append, ofDigits_replicate_zero, Nat.ofDigits_digits,
      List.length_replicate]
    ring
  rw [← h1, Nat.digits_ofDigits 10 (by norm_num)]
  · intro l hl
    rcases List.mem_append.mp hl with hl | hl
    · rw [List.eq_of_mem_replicate hl]
      norm_num
    · exact Nat.digits_lt_base (by norm_num) hl
  · intro hne'
    have h2 : (List.replicate k 0 ++ Nat.digits 10 v).getLast?
        = (Nat.digits 10 v).getLast? := List.getLast?_append_of_ne_nil _ hdig
    rw [List.getLast?_eq_getLast _ hne', List.getLast?_eq_getLast _ hdig] at h2
    rw [Option.some_inj.mp h2]
    exact Nat.getLast_digit_ne_zero 10 hv

theorem digits_length_le {v len : Nat} (h : v < 10 ^ len) :
    (Nat.digits 10 v).length ≤ len := by
  by_cases hv : v = 0
  · simp [hv]
  · rw [Nat.digits_len 10 v (by norm_num) hv]
    have := (Nat.lt_pow_iff_log_lt (by norm_num) hv).mp h
    omega

/-- The rendered fraction digits (zero-padded to the scale, trailing
    zeros stripped) recover the original fractional digit string. -/
theorem fracStr_recovers {s : Nat} {fds : List Char}
    (hf : isDigits0 fds = true) (hne : fds ≠ [])
    (hlast : ∀ (h : fds ≠ []), fds.getLast h ≠ '0') (hlen : fds.length ≤ s) :
    stripTrailingZeros (padStartZeros s
      (natToDec (decDigitsVal fds * 10 ^ (s - fds.length))).data) = fds := by
  obtain ⟨hdecomp, hpos⟩ := digit_string_decomposition hf hne (hlast hne)
  set v := decDigitsVal fds with hv
  set C : List Char := ((Nat.digits 10 v).map digitChar).reverse with hC
  set j : Nat := (fds.takeWhile (· = '0')).length with hj
  set k : Nat := s - fds.length with hk
  have hvne : v ≠ 0 := Nat.pos_iff_ne_zero.mp hpos
  have hCne : C ≠ [] := by
    rw [hC]
    simp [Nat.digits_ne_nil_iff_ne_zero, hvne]
  have hdata : (natToDec (v * 10 ^ k)).data = C ++ List.replicate k '0' := by
    rw [natToDec_data, if_neg (by positivity), digits_mul_pow_ten hvne,
      List.map_append, List.reverse_append, List.map_replicate,
      List.reverse_replicate]
    rw [show digitChar 0 = '0' by decide]
  have hcnt : (Nat.digits 10 v).length ≤ fds.length := by
    apply digits_length_le
    rw [hv]
    exact decDigitsVal_lt hf
  have hClen : C.length = (Nat.digits 10 v).length := by simp [hC]
  have hfdslen : fds.length = j + C.length := by
    conv_lhs => rw [hdecomp]
    simp [hj, hC]
  have hpad : padStartZeros s (C ++ List.replicate k '0')
      = List.replicate j '0' ++ (C ++ List.replicate k '0') := by
    rw [padStartZeros]
    congr 2
    simp only [List.length_append, List.length_replicate]
    omega
  have hlastC : (List.replicate j '0' ++ C).getLast? ≠ some '0' := by
    have heq : (List.replicate j '0' ++ C).getLast? = fds.getLast? := by
      conv_rhs => rw [hdecomp]
    rw [heq, List.getLast?_eq_getLast _ hne]
    intro hcon
    exact hlast hne (Option.some_inj.mp hcon)
  rw [hdata, hpad, ← List.append_assoc, stripTrailingZeros_append_zeros,
    stripTrailingZeros_eq_self hlastC, ← hdecomp]

/-! ### Evaluating parseUnits on a normalized decimal string -/

theorem intToDec_coe (n : Nat) : intToDec (n : Int) = natToDec n := by
  rw [intToDec, if_neg (by omega), Int.natAbs_ofNat]

theorem parseUnits_decStr (w s : Nat) (fds : List Char)
    (hf : isDigits0 fds = true) (hlen : fds.length <= s) :
    parseUnits (.jstr (decStr w fds)) s
      = .ok ("0x" ++ natToHex
          (w * 10 ^ s + decDigitsVal fds * 10 ^ (s - fds.length))) := by
  by_cases hfds : fds.isEmpty
  · have hfdsnil : fds = [] := List.isEmpty_iff.mp hfds
    subst hfdsnil
    have hsplit : splitWholeFrac (natToDec w).data = ((natToDec w).data, []) :=
      splitWholeFrac_no_dot (natToDec_no_dot w)
    simp only [parseUnits, decStr, List.isEmpty_nil, if_true, parseUnitsCore,
      hsplit, natToDec_all_digits, Bool.true_and, Bool.not_true,
      Bool.false_eq_true, if_false, isDigits0, List.all_nil, List.length_nil]
    rw [if_neg (by omega)]
    rw [decDigitsVal_padEnd, decDigitsVal_natToDec]
    rfl
  · have hne : fds ≠ [] := fun hnil => by simp [hnil] at hfds
    have hdata : (natToDec w ++ "." ++ (⟨fds⟩ : String)).data
        = (natToDec w).data ++ '.' :: fds := by
      rw [String.data_append, String.data_append]
      rw [show ("." : String).data = ['.'] from rfl,
        show (⟨fds⟩ : String).data = fds from rfl, List.append_assoc]
      rfl
    have hsplit : splitWholeFrac ((natToDec w).data ++ '.' :: fds)
        = ((natToDec w).data, fds) :=
      splitWholeFrac_append (natToDec_no_dot w) (isDigits0_no_dot hf)
    simp only [parseUnits, decStr, hfds, Bool.false_eq_true, if_false, hdata,
      parseUnitsCore, hsplit, natToDec_all_digits, hf, Bool.and_self,
      Bool.not_true, Bool.true_and]
    rw [if_neg (by omega), decDigitsVal_padEnd, decDigitsVal_natToDec]

/-! ## Claims -/

/-- C1: the claim says `hexToDecimal` returns a plain number only when
    the decimal string round-trips through `Number` without precision
    loss, so that no amount is silently truncated through floating
    point beyond 2^53.  The code instead computes
    `isNaN(Number(asDec)) ? asDec : Number(asDec)`, and `Number` of a
    decimal digit string is never `NaN`, so the string branch is dead:
    for the wire value `0x20000000000001`, whose exact value is
    2^53 + 1 = 9007199254740993, the function returns the binary64
    number 9007199254740992 — a silent loss of precision. -/
theorem hexToDecimal_truncates_beyond_2_53 :
    hexDigitsVal "20000000000001".data = 9007199254740993 ∧
    hexToDecimalString "0x20000000000001" = .ok (.jnum 9007199254740992) ∧
    ((9007199254740992 : ℚ) ≠ (9007199254740993 : ℚ)) :=
  ⟨by decide, rfl, by decide⟩

/-- C2: the claim says envelope ids increase monotonically across all
    envelopes a dispatcher instance ever creates, so no two envelopes
    of successive batches share an id.  `batchRpc` computes
    `id: this.idCounter + i` without ever advancing the counter, so on
    a fresh provider (counter 1) two successive one-element batches
    both produce an envelope with id 1. -/
theorem batch_ids_repeat_across_batches :
    ((batchEnvelopes ProviderState.initial [⟨"eth_blockNumber", none⟩]).1.map Envelope.id
      = [1]) ∧
    ((batchEnvelopes
        (batchEnvelopes ProviderState.initial [⟨"eth_blockNumber", none⟩]).2
        [⟨"eth_chainId", none⟩]).1.map Envelope.id = [1]) :=
  ⟨rfl, rfl⟩

/-- C9 (counterexample): for the transport response
    `{result: "0xde0b6b3a7640000"}` (10^18 wei) the value `getBalance`
    delivers is not the decimal string `"1"` claimed by the spec — the
    source converts `weiToNec`'s string back through `Number(...)`. -/
theorem getBalance_not_decimal_string_one :
    getBalance (.jobj [("result", .jstr "0xde0b6b3a7640000")]) ≠ .ok (.jstr "1") := by
  intro h
  have h1 : (Except.ok (JValue.jnum 1) : Except CallFailure JValue) = .ok (.jstr "1") :=
    Eq.trans
      (Eq.symm (rfl :
        getBalance (.jobj [("result", .jstr "0xde0b6b3a7640000")]) = .ok (.jnum 1)))
      h
  injection h1 with h2
  exact JValue.noConfusion h2

/-- C9 (amended): the scenario delivers the numeric value 1 (a JS
    number): `rpc` normalizes `"0xde0b6b3a7640000"` to the number
    10^18, `weiToNec` formats it as the decimal string `"1"`, and
    `getBalance` then returns `Number("1")`. -/
theorem getBalance_delivers_number_one :
    getBalance (.jobj [("result", .jstr "0xde0b6b3a7640000")]) = .ok (.jnum 1) := rfl

/-- C6 (counterexample): the claim says every input (number or string)
    carrying more fractional digits than the scale is rejected with
    `OverflowPrecision`, never silently rounded.  A number input is
    first rendered by `value.toFixed(decimals)`, which rounds: for the
    number 1.25 (= 5/4 exactly in binary64) at scale 1, `parseUnits`
    returns the hex of 13 instead of failing. -/
theorem parseUnits_number_input_rounds :
    parseUnits (.jnum (mkRat 5 4)) 1 = .ok "0xd" := rfl

/-- C6 (amended): for every STRING input of decimal shape
    `"<digits>.<digits>"` whose fractional part has more digits than
    the scale, `parseUnits` fails with the `OverflowPrecision` error
    and in particular never converts such an input to a hex result;
    number inputs, by contrast, are pre-rounded to exactly `scale`
    fractional digits by `toFixed` (see the counterexample), so the
    refusal guarantee holds only for strings. -/
theorem parseUnits_rejects_excess_fraction (w f : List Char) (s : Nat)
    (hw : isDigits1 w = true) (hf : isDigits0 f = true) (hs : s < f.length) :
    parseUnits (.jstr ⟨w ++ '.' :: f⟩) s
      = .error (.overflowPrecision s ⟨w ++ '.' :: f⟩) := by
  have hwd : '.' ∉ w := by
    intro hm
    have := (List.all_eq_true.mp (Bool.and_elim_right hw)) _ hm
    simp [isDecDigit] at this
  have hsplit := splitWholeFrac_append hwd (isDigits0_no_dot hf)
  simp [parseUnits, parseUnitsCore, hsplit, hw, hf, hs]

/-- Witness for C6: the spec's own example
    `parseScaledUnits("1.0000000000000000001", 18)` fails with
    `OverflowPrecision`. -/
theorem parseUnits_rejects_excess_fraction_witness :
    (isDigits1 "1".data = true) ∧ (18 < "0000000000000000001".data.length) ∧
    parseUnits (.jstr ⟨"1".data ++ '.' :: "0000000000000000001".data⟩) 18
      = .error (.overflowPrecision 18 ⟨"1".data ++ '.' :: "0000000000000000001".data⟩) :=
  ⟨by decide, by decide,
    parseUnits_rejects_excess_fraction _ _ _ (by decide) (by decide) (by decide)⟩

/-- C7 (counterexample): the claim says the value of every
    identifier-named field is copied byte-identically.  An
    identifier-named field holding an OBJECT is recursed into like any
    other container: for `{from: {x: "0x10"}}` the value of `from`
    comes back altered (`"0x10"` was numerically converted to `"16"`). -/
theorem normalizeResponse_alters_identifier_object :
    normalizeResponse (.jobj [("from", .jobj [("x", .jstr "0x10")])])
      = .ok (.jobj [("from", .jobj [("x", .jstr "16")])]) ∧
    (JValue.jobj [("x", .jstr "16")]) ≠ .jobj [("x", .jstr "0x10")] := by
  refine ⟨rfl, ?_⟩
  intro h
  injection h with h1
  injection h1 with h2 h3
  injection h2 with h4 h5
  injection h5 with h6
  exact absurd h6 (by decide)

/-- C7 (amended): every identifier-named field whose value is a STRING
    is copied verbatim by normalization — never numerically converted —
    and this holds at every nesting depth, because every object the
    normalizer processes (top-level or nested) is rebuilt by the same
    `normalizeFields`; identifier-named fields holding objects or
    arrays are instead recursed into like any other field. -/
theorem normalizeResponse_preserves_identifier_strings
    (fs : List (String × JValue)) (k s : String) (out : JValue)
    (hk : k ∈ identifierFields) (hmem : (k, .jstr s) ∈ fs)
    (hok : normalizeResponse (.jobj fs) = .ok out) :
    ∃ fs', out = .jobj fs' ∧ (k, .jstr s) ∈ fs' := by
  obtain ⟨fs', hfs, rfl⟩ := normalizeResponse_jobj_inv hok
  obtain ⟨v', hv', hmem'⟩ := normalizeFields_mem hfs hmem
  rw [normalizeField_identifier_str hk] at hv'
  injection hv' with hv'
  exact ⟨fs', rfl, hv' ▸ hmem'⟩

/-- Witness for C7: a `to` field holding an address string survives
    normalization byte-identically. -/
theorem normalizeResponse_preserves_identifier_strings_witness :
    ("to" ∈ identifierFields) ∧
    (("to", JValue.jstr "0x0000000000000000000000000000000000000001")
        ∈ [("to", JValue.jstr "0x0000000000000000000000000000000000000001"),
           ("value", JValue.jstr "0x10")]) ∧
    ∃ fs', (JValue.jobj [("to", .jstr "0x0000000000000000000000000000000000000001"),
                         ("value", .jstr "16")]) = .jobj fs' ∧
      ("to", JValue.jstr "0x0000000000000000000000000000000000000001") ∈ fs' :=
  ⟨by decide, by simp,
    normalizeResponse_preserves_identifier_strings
      [("to", .jstr "0x0000000000000000000000000000000000000001"),
       ("value", .jstr "0x10")]
      "to" "0x0000000000000000000000000000000000000001"
      (.jobj [("to", .jstr "0x0000000000000000000000000000000000000001"),
              ("value", .jstr "16")])
      (by decide) (by simp) rfl⟩

/-- C10: for every object input, normalization (when it succeeds)
    returns an object with exactly the same keys in the same order —
    no field is dropped, added or renamed; only values change.  The
    other non-array inputs of the claim (`null`-free non-objects) have
    no fields. -/
theorem normalizeResponse_preserves_keys
    (fs : List (String × JValue)) (out : JValue)
    (hok : normalizeResponse (.jobj fs) = .ok out) :
    ∃ fs', out = .jobj fs' ∧ fs'.map Prod.fst = fs.map Prod.fst := by
  obtain ⟨fs', hfs, rfl⟩ := normalizeResponse_jobj_inv hok
  exact ⟨fs', rfl, normalizeFields_keys hfs⟩

/-- Witness for C10: a transaction-like object keeps exactly its keys. -/
theorem normalizeResponse_preserves_keys_witness :
    ∃ fs', (JValue.jobj [("from", .jstr "0xab"), ("value", .jstr "16"),
                         ("ok", .jbool true)]) = .jobj fs' ∧
      fs'.map Prod.fst = [("from", JValue.jstr "0xab"), ("value", .jstr "0x10"),
                          ("ok", .jbool true)].map Prod.fst :=
  normalizeResponse_preserves_keys
    [("from", .jstr "0xab"), ("value", .jstr "0x10"), ("ok", .jbool true)]
    (.jobj [("from", .jstr "0xab"), ("value", .jstr "16"), ("ok", .jbool true)])
    rfl

/-- C8 (counterexample): the claim says a successful call returns the
    normalized `result` field whenever a result wrapper is present.
    The source computes `normalizeResponse(response?.result || response)`
    with JS `||`, so a FALSY result value (here `false`, as
    `eth_syncing` legitimately returns) makes the call normalize the
    whole response object instead of the result field. -/
theorem rpc_falsy_result_uses_whole_response :
    rpc (.jobj [("result", .jbool false)]) = .ok (.jobj [("result", .jbool false)]) ∧
    rpc (.jobj [("result", .jbool false)]) ≠ .ok (.jbool false) := by
  refine ⟨rfl, ?_⟩
  intro h
  have h1 : (Except.ok (JValue.jobj [("result", .jbool false)]) :
      Except CallFailure JValue) = .ok (.jbool false) :=
    Eq.trans
      (Eq.symm (rfl : rpc (.jobj [("result", .jbool false)])
        = .ok (.jobj [("result", .jbool false)]))) h
  injection h1 with h2
  exact JValue.noConfusion h2

/-- C8 (amended): for a post-middleware response whose `error` field,
    when present, is a structured (object) error: the call fails with
    an `RpcError` exactly when that error field is present, and the
    `RpcError` carries the upstream `message`, `code` and `data`;
    otherwise the call returns the normalizer's image of the `result`
    field when that field is present AND truthy, and of the whole
    response when the `result` field is absent or falsy. -/
theorem rpc_dispatch (response : JValue)
    (herr : ∀ e, jsField response "error" = some e → ∃ efs, e = .jobj efs) :
    ((∃ m c d, rpc response = .error (.rpcError m c d)) ↔
        (jsField response "error").isSome) ∧
    (∀ e, jsField response "error" = some e →
        rpc response = .error (.rpcError (jsField e "message") (jsField e "code")
          (jsField e "data"))) ∧
    (jsField response "error" = none →
      (∀ r, jsField response "result" = some r → jsTruthy r = true →
          rpc response = (normalizeResponse r).mapError CallFailure.thrown) ∧
      ((jsField response "result" = none ∨
          ∃ r, jsField response "result" = some r ∧ jsTruthy r = false) →
          rpc response = (normalizeResponse response).mapError CallFailure.thrown)) := by
  refine ⟨⟨fun ⟨m, c, d, hrpc⟩ => ?_, fun hsome => ?_⟩, fun e he => ?_, fun hnone => ⟨fun r hr htr => ?_, fun hfalsy => ?_⟩⟩
  · by_contra hnone
    rw [Option.not_isSome_iff_eq_none] at hnone
    simp [rpc, jsTruthyOpt, hnone] at hrpc
    cases hmap : (normalizeResponse (jsOr (jsField response "result") response)) with
    | ok v => rw [hmap] at hrpc; simp [Except.mapError] at hrpc
    | error err =>
        rw [hmap] at hrpc
        simp [Except.mapError] at hrpc
  · obtain ⟨e, he⟩ := Option.isSome_iff_exists.mp hsome
    obtain ⟨efs, rfl⟩ := herr e he
    refine ⟨jsField2 response "error" "message", jsField2 response "error" "code",
      jsField2 response "error" "data", ?_⟩
    simp [rpc, jsTruthyOpt, he, jsTruthy]
  · obtain ⟨efs, rfl⟩ := herr e he
    simp [rpc, jsTruthyOpt, he, jsTruthy, jsField2]
  · simp [rpc, jsTruthyOpt, hnone, jsOr, hr, htr]
  · rcases hfalsy with hrn | ⟨r, hr, hrf⟩
    · simp [rpc, jsTruthyOpt, hnone, jsOr, hrn]
    · simp [rpc, jsTruthyOpt, hnone, jsOr, hr, hrf]

/-- Witness for C8: a response carrying a structured error object
    `{error: {message: "boom", code: 3}}` makes the call fail with the
    matching `RpcError`. -/
theorem rpc_dispatch_witness :
    (∀ e, jsField (.jobj [("error", .jobj [("message", .jstr "boom"), ("code", .jnum 3)])])
        "error" = some e → ∃ efs, e = JValue.jobj efs) ∧
    rpc (.jobj [("error", .jobj [("message", .jstr "boom"), ("code", .jnum 3)])])
      = .error (.rpcError (some (.jstr "boom")) (some (.jnum 3)) none) := by
  have herr : ∀ e, jsField (.jobj [("error", .jobj [("message", .jstr "boom"), ("code", .jnum 3)])])
      "error" = some e → ∃ efs, e = JValue.jobj efs := by
    intro e he
    refine ⟨[("message", .jstr "boom"), ("code", .jnum 3)], ?_⟩
    have : some (JValue.jobj [("message", .jstr "boom"), ("code", .jnum 3)]) = some e := by
      exact Eq.trans (rfl :
        jsField (.jobj [("error", .jobj [("message", .jstr "boom"), ("code", .jnum 3)])]) "error"
          = some (.jobj [("message", .jstr "boom"), ("code", .jnum 3)])).symm he
    injection this with h1
    exact h1.symm
  refine ⟨herr, ?_⟩
  have := (rpc_dispatch
    (.jobj [("error", .jobj [("message", .jstr "boom"), ("code", .jnum 3)])]) herr).2.1
    (.jobj [("message", .jstr "boom"), ("code", .jnum 3)]) rfl
  exact this

/-- Successful `mapM` over `Except` preserves length. -/
theorem mapM_ok_length {α β ε : Type} (f : α → Except ε β) :
    ∀ {l : List α} {out : List β}, l.mapM f = .ok out → out.length = l.length := by
  intro l
  induction l with
  | nil =>
      intro out h
      simp only [List.mapM_nil, pure, Except.pure, Except.ok.injEq] at h
      simp [← h]
  | cons a as ih =>
      intro out h
      rw [List.mapM_cons] at h
      cases hf : f a with
      | error e => simp [hf, bind, Except.bind] at h
      | ok b =>
          cases has : as.mapM f with
          | error e =>
              have has' : List.mapM.loop f as [] = Except.error e := has
              simp [hf, has, has', bind, Except.bind] at h
          | ok bs =>
              have has' : List.mapM.loop f as [] = Except.ok bs := has
              simp only [hf, has, has', bind, Except.bind, pure, Except.pure,
                Except.ok.injEq] at h
              subst h
              simp [ih has]

/-- `sortById` permutes, hence preserves length. -/
theorem sortById_length (rs : List JValue) : (sortById rs).length = rs.length :=
  (List.perm_insertionSort _ rs).length_eq

/-- C4 (counterexample): the claim says every non-transport failure
    mode still yields an array of length n.  When the transport
    answers a 2-call batch with a single non-array JSON object (as
    JSON-RPC servers do for a malformed batch), the source wraps it as
    `[data]` and returns ONE slot, not two. -/
theorem batchRpc_nonarray_response_loses_slots :
    batchRpc [⟨"m1", none⟩, ⟨"m2", none⟩]
        (.ok (.jobj [("id", .jnum 1), ("error", .jobj [("message", .jstr "bad batch")])]))
      = [.jobj [("error", .jobj [("message", .jstr "bad batch")])]] ∧
    ([JValue.jobj [("error", .jobj [("message", .jstr "bad batch")])]]).length
      ≠ ([(⟨"m1", none⟩ : RpcCall), ⟨"m2", none⟩]).length :=
  ⟨rfl, by decide⟩

/-- C4 (amended): `batchRpc` always resolves to an array with errors
    embedded per element: a transport-level transmission failure yields
    exactly one slot per input call, every slot carrying the same
    wrapped transport error; an exception thrown while processing the
    responses likewise yields one identical error slot per call; and on
    a clean response array the output has exactly one slot per RESPONSE
    the transport returned — which is the input length n precisely when
    the transport answers each call once. -/
theorem batchRpc_failure_modes (calls : List RpcCall) :
    (∀ e, batchRpc calls (.error e)
        = List.replicate calls.length (.jobj [("error", .jstr e)])) ∧
    (∀ xs slots, (sortById xs).mapM slotOf = .ok slots →
        batchRpc calls (.ok (.jarr xs)) = slots ∧ slots.length = xs.length) ∧
    (∀ xs err, (sortById xs).mapM slotOf = .error err →
        batchRpc calls (.ok (.jarr xs))
          = List.replicate calls.length (.jobj [("error", .jstr err.message)])) := by
  refine ⟨fun e => ?_, fun xs slots h => ⟨?_, ?_⟩, fun xs err h => ?_⟩
  · simp [batchRpc, List.map_const']
  · have h' : List.mapM.loop slotOf (sortById xs) [] = Except.ok slots := h
    simp [batchRpc, h']
  · exact (mapM_ok_length _ h).trans (sortById_length xs)
  · have h' : List.mapM.loop slotOf (sortById xs) [] = Except.error err := h
    simp [batchRpc, h', List.map_const']

/-- Witness for C4: two calls answered out of order with per-call
    error objects come back as two embedded error slots. -/
theorem batchRpc_failure_modes_witness :
    ((sortById [.jobj [("id", .jnum 2), ("error", .jstr "e2")],
                .jobj [("id", .jnum 1), ("error", .jstr "e1")]]).mapM slotOf
      = .ok [.jobj [("error", .jstr "e1")], .jobj [("error", .jstr "e2")]]) ∧
    batchRpc [⟨"m1", none⟩, ⟨"m2", none⟩]
        (.ok (.jarr [.jobj [("id", .jnum 2), ("error", .jstr "e2")],
                     .jobj [("id", .jnum 1), ("error", .jstr "e1")]]))
      = [.jobj [("error", .jstr "e1")], .jobj [("error", .jstr "e2")]] ∧
    ([JValue.jobj [("error", .jstr "e1")], .jobj [("error", .jstr "e2")]]).length
      = ([JValue.jobj [("id", .jnum 2), ("error", .jstr "e2")],
          .jobj [("id", .jnum 1), ("error", .jstr "e1")]]).length :=
  ⟨rfl,
    ((batchRpc_failure_modes [⟨"m1", none⟩, ⟨"m2", none⟩]).2.1
      [.jobj [("id", .jnum 2), ("error", .jstr "e2")],
       .jobj [("id", .jnum 1), ("error", .jstr "e1")]]
      [.jobj [("error", .jstr "e1")], .jobj [("error", .jstr "e2")]] rfl).1,
    ((batchRpc_failure_modes [⟨"m1", none⟩, ⟨"m2", none⟩]).2.1
      [.jobj [("id", .jnum 2), ("error", .jstr "e2")],
       .jobj [("id", .jnum 1), ("error", .jstr "e1")]]
      [.jobj [("error", .jstr "e1")], .jobj [("error", .jstr "e2")]] rfl).2⟩

/-- A list with strictly ascending keys is the unique key-sorted
    arrangement of its elements. -/
theorem sorted_perm_eq_of_strict {α : Type} (key : α → ℚ) :
    ∀ {l1 l2 : List α}, l1.Perm l2 →
      l1.Pairwise (fun a b => key a < key b) →
      l2.Pairwise (fun a b => key a ≤ key b) → l1 = l2 := by
  intro l1
  induction l1 with
  | nil =>
      intro l2 hperm _ _
      exact (hperm.symm.eq_nil).symm
  | cons a t1 ih =>
      intro l2 hperm h1 h2
      cases l2 with
      | nil => exact absurd hperm.eq_nil (by simp)
      | cons b t2 =>
          have hab : a = b := by
            by_contra hne
            have ha2 : a ∈ b :: t2 := hperm.mem_iff.mp (List.mem_cons_self a t1)
            have hb1 : b ∈ a :: t1 := hperm.symm.mem_iff.mp (List.mem_cons_self b t2)
            have hat2 : a ∈ t2 := by
              rcases List.mem_cons.mp ha2 with h | h
              · exact absurd h hne
              · exact h
            have hbt1 : b ∈ t1 := by
              rcases List.mem_cons.mp hb1 with h | h
              · exact absurd h.symm hne
              · exact h
            have hlt : key a < key b := (List.pairwise_cons.mp h1).1 b hbt1
            have hle : key b ≤ key a := (List.pairwise_cons.mp h2).1 a hat2
            exact absurd hlt (not_lt_of_le hle)
          subst hab
          have htail : t1.Perm t2 := hperm.cons_inv
          have := ih htail (List.pairwise_cons.mp h1).2 (List.pairwise_cons.mp h2).2
          rw [this]

/-- Sorting a permutation of a strictly-ascending-id response list
    recovers that list exactly. -/
theorem sortById_of_perm_ascending {rs rs0 : List JValue}
    (hperm : rs.Perm rs0)
    (hasc : rs0.Pairwise (fun a b => respIdKey a < respIdKey b)) :
    sortById rs = rs0 := by
  have hp : rs0.Perm (sortById rs) :=
    (hperm.symm.trans (List.perm_insertionSort _ rs).symm)
  have hs : (sortById rs).Pairwise (fun a b => respIdKey a ≤ respIdKey b) :=
    List.sorted_insertionSort _ rs
  exact (sorted_perm_eq_of_strict respIdKey hp hasc hs).symm

/-- C3: for every batch and every permutation `rs` in which the
    transport returns the batch's response array `rs0` (where, as
    `batchEnvelopes` assigns, the i-th submitted call carries id
    `idCounter + i` and `rs0.get i` is its response, so ids ascend
    consecutively), `batchRpc` re-sorts by id before zipping: its
    output on the scrambled array equals its output on the in-order
    array, whose i-th slot is the processed result (or embedded error)
    of the i-th submitted call. -/
theorem batchRpc_restores_submission_order
    (st : ProviderState) (calls : List RpcCall) (rs rs0 : List JValue)
    (hperm : rs.Perm rs0)
    (hids : ∀ (i : Nat) (h : i < rs0.length),
        respIdKey (rs0.get ⟨i, h⟩) = ((st.idCounter + i : Nat) : ℚ)) :
    batchRpc calls (.ok (.jarr rs)) = batchRpc calls (.ok (.jarr rs0)) ∧
    ∀ slots, rs0.mapM slotOf = .ok slots →
      batchRpc calls (.ok (.jarr rs)) = slots := by
  have hasc : rs0.Pairwise (fun a b => respIdKey a < respIdKey b) := by
    rw [List.pairwise_iff_get]
    intro i j hij
    rw [hids i.1 i.2, hids j.1 j.2]
    have : st.idCounter + i.1 < st.idCounter + j.1 := by omega
    exact_mod_cast this
  have h1 : sortById rs = rs0 := sortById_of_perm_ascending hperm hasc
  have h2 : sortById rs0 = rs0 := sortById_of_perm_ascending (List.Perm.refl rs0) hasc
  constructor
  · simp only [batchRpc]
    rw [h1, h2]
  · intro slots hslots
    have h' : List.mapM.loop slotOf (sortById rs) [] = Except.ok slots := by
      rw [h1]; exact hslots
    simp [batchRpc, h']

/-- Witness for C3: three calls whose responses come back rotated are
    re-correlated into submission order. -/
theorem batchRpc_restores_submission_order_witness :
    (([JValue.jobj [("id", .jnum 3), ("error", .jstr "e3")]] ++
      [JValue.jobj [("id", .jnum 1), ("error", .jstr "e1")],
       .jobj [("id", .jnum 2), ("error", .jstr "e2")]]).Perm
      ([JValue.jobj [("id", .jnum 1), ("error", .jstr "e1")],
        .jobj [("id", .jnum 2), ("error", .jstr "e2")]] ++
       [JValue.jobj [("id", .jnum 3), ("error", .jstr "e3")]])) ∧
    batchRpc [⟨"m1", none⟩, ⟨"m2", none⟩, ⟨"m3", none⟩]
        (.ok (.jarr ([JValue.jobj [("id", .jnum 3), ("error", .jstr "e3")]] ++
          [JValue.jobj [("id", .jnum 1), ("error", .jstr "e1")],
           .jobj [("id", .jnum 2), ("error", .jstr "e2")]])))
      = [.jobj [("error", .jstr "e1")], .jobj [("error", .jstr "e2")],
         .jobj [("error", .jstr "e3")]] := by
  have hperm := @List.perm_append_comm JValue
    [JValue.jobj [("id", .jnum 3), ("error", .jstr "e3")]]
    [JValue.jobj [("id", .jnum 1), ("error", .jstr "e1")],
     .jobj [("id", .jnum 2), ("error", .jstr "e2")]]
  refine ⟨hperm, ?_⟩
  exact (batchRpc_restores_submission_order ⟨1⟩
    [⟨"m1", none⟩, ⟨"m2", none⟩, ⟨"m3", none⟩] _ _ hperm (by decide)).2
    [.jobj [("error", .jstr "e1")], .jobj [("error", .jstr "e2")],
     .jobj [("error", .jstr "e3")]] rfl

/-- C5: round-trip — for every scale `s` and every normalized decimal
    string (canonical integer part `w`, at most `s` fractional digits
    `fds` with no trailing zero), parsing to base-unit hex and
    formatting back returns the original string. -/
theorem parse_format_roundtrip (w s : Nat) (fds : List Char)
    (hf : isDigits0 fds = true)
    (hlast : ∀ (h : fds ≠ []), fds.getLast h ≠ '0')
    (hlen : fds.length ≤ s) :
    ∃ hex, parseUnits (.jstr (decStr w fds)) s = .ok hex ∧
      formatUnits (.jstr hex) s = .ok (decStr w fds) := by
  refine ⟨_, parseUnits_decStr w s fds hf hlen, ?_⟩
  set c := w * 10 ^ s + decDigitsVal fds * 10 ^ (s - fds.length) with hc
  have hbig := jsBigIntOfString_0x_natToHex c
  have hfrac_lt : decDigitsVal fds * 10 ^ (s - fds.length) < 10 ^ s := by
    have h1 : decDigitsVal fds < 10 ^ fds.length := decDigitsVal_lt hf
    calc decDigitsVal fds * 10 ^ (s - fds.length)
        < 10 ^ fds.length * 10 ^ (s - fds.length) :=
          (Nat.mul_lt_mul_right (Nat.pos_pow_of_pos _ (by norm_num))).mpr h1
      _ = 10 ^ s := by
          rw [← pow_add]
          congr 1
          omega
  have hcsplit : c = decDigitsVal fds * 10 ^ (s - fds.length) + 10 ^ s * w := by
    rw [hc]; ring
  have hdiv : c / 10 ^ s = w := by
    rw [hcsplit, Nat.add_mul_div_left _ _ (Nat.pos_pow_of_pos _ (by norm_num)),
      Nat.div_eq_of_lt hfrac_lt, Nat.zero_add]
  have hmod : c % 10 ^ s = decDigitsVal fds * 10 ^ (s - fds.length) := by
    rw [hcsplit, Nat.add_mul_mod_self_left, Nat.mod_eq_of_lt hfrac_lt]
  have htd : ((c : Int)).tdiv ((10:Int) ^ s) = ((w : Nat) : Int) := by
    rw [show ((10:Int) ^ s) = ((10 ^ s : Nat) : Int) by push_cast; ring]
    rw [show ((c : Int)).tdiv (((10 ^ s : Nat) : Int))
          = ((c / 10 ^ s : Nat) : Int) from rfl, hdiv]
  have htm : ((c : Int)).tmod ((10:Int) ^ s)
      = ((decDigitsVal fds * 10 ^ (s - fds.length) : Nat) : Int) := by
    rw [show ((10:Int) ^ s) = ((10 ^ s : Nat) : Int) by push_cast; ring]
    rw [show ((c : Int)).tmod (((10 ^ s : Nat) : Int))
          = ((c % 10 ^ s : Nat) : Int) from rfl, hmod]
  simp only [formatUnits, hbig, bind, Except.bind, pure, Except.pure, htd, htm,
    intToDec_coe]
  by_cases hfds : fds.isEmpty
  · have hfdsnil : fds = [] := List.isEmpty_iff.mp hfds
    subst hfdsnil
    rw [show decDigitsVal [] * 10 ^ (s - List.length ([] : List Char)) = 0 by
          simp [decDigitsVal],
        show (natToDec 0).data = ['0'] from rfl,
        show padStartZeros s ['0'] = List.replicate (s - 1) '0' ++ ['0'] from rfl,
        ← List.replicate_succ', stripTrailingZeros_replicate]
    simp [decStr]
  · have hne : fds ≠ [] := fun hnil => by simp [hnil] at hfds
    rw [fracStr_recovers hf hne hlast hlen]
    have hemp : fds.isEmpty = false := by
      cases hev : fds.isEmpty
      · rfl
      · exact absurd hev hfds
    simp [decStr, hemp, List.isEmpty_iff, hne]

/-- Witness for C5: the normalized string `"1.5"` at scale 18
    round-trips (`decStr 1 ['5'] = "1.5"`). -/
theorem parse_format_roundtrip_witness :
    (decStr 1 "5".data = "1.5") ∧
    (isDigits0 ("5".data) = true) ∧ (("5".data).length ≤ 18) ∧
    ∃ hex, parseUnits (.jstr (decStr 1 "5".data)) 18 = .ok hex ∧
      formatUnits (.jstr hex) 18 = .ok (decStr 1 "5".data) :=
  ⟨by decide, by decide, by decide,
    parse_format_roundtrip 1 18 ("5".data) (by decide)
      (fun _ => (by decide : ('5' : Char) ≠ '0')) (by decide)⟩
